import Mathlib

/-!
Verification of the NER-PII document-processing pipeline (`secure-ai`).

This file gives a shallow embedding, in Lean 4, of the parts of the
repository needed to settle the claims about its specification:

* `app/services/extraction/extractor.py` — page assembly, character-offset
  assignment, the OCR-fallback decision, `PageContent.get_bboxes_for_range`;
* `app/services/detection/detector.py` — regex/NER entity construction and
  `_deduplicate`;
* `app/core/pipeline.py` — the offset→bbox resolver step and the audit
  accounting of `Pipeline.run`;
* `app/services/redaction/redactor.py` — `Redactor.redact` per-entity logic;
* `app/core/validator.py` — `FileValidator.validate`;
* `app/services/signing/signer.py` — `DocumentSigner.sign` / `verify`.

Modelling conventions (fixed throughout):
* Python `str` values on which the code computes are `List Char`
  (`PyStr`); Python `len`, slicing, `strip`, `find` are re-implemented
  below with their documented semantics.
* Python floats carrying detector confidences are represented in
  fixed-point units of 1/10000 (`Nat`); the code only compares them
  (`score < 0.90`, sort key `-confidence`) and rounds to 4 decimals,
  which is the identity at this granularity.
* PDF user-space coordinates are represented as `Int`; the code only
  copies them and takes componentwise `min`/`max`.
* External collaborators (the `re` engine's match stream, the HuggingFace
  tagger, Tesseract word output, libmagic, PyMuPDF document facts, the
  `cryptography` ECDSA primitives) are inputs or function parameters of
  the model; hypotheses about them appear explicitly in the theorems.
-/

namespace NerPii

/-! ## Python string primitives (on `List Char`) -/

/-- Python text modelled as a list of characters (`len`/offsets count
code points, as in Python). -/
abbrev PyStr := List Char

/-- `str.strip()` with no arguments: remove leading and trailing
whitespace (ASCII model of Python's whitespace class). -/
def pyStrip (s : PyStr) : PyStr :=
  ((s.dropWhile Char.isWhitespace).reverse.dropWhile Char.isWhitespace).reverse

/-- The number of non-whitespace characters of a string (used to state
the spec's "fewer than 20 non-whitespace characters" reading). -/
def nonWSCount (s : PyStr) : Nat :=
  (s.filter (fun c => !c.isWhitespace)).length

/-- Python slicing `s[a:b]` for `0 ≤ a ≤ b` (clamped at the ends, as in
Python). -/
def pySlice (s : PyStr) (a b : Nat) : PyStr :=
  (s.drop a).take (b - a)

/-- `sep.join(parts)`. -/
def pyJoin (sep : PyStr) (parts : List PyStr) : PyStr :=
  List.intercalate sep parts

/-- Does `sub` occur in `s` starting at position `i`? -/
def occursAt (s sub : PyStr) (i : Nat) : Bool :=
  sub.isPrefixOf (s.drop i)

/-- Worker for `pyFind`: try positions `i, i+1, …` while fuel lasts. -/
def pyFindAux (s sub : PyStr) : Nat → Nat → Option Nat
  | _, 0 => none
  | i, fuel + 1 =>
    if occursAt s sub i then some i else pyFindAux s sub (i + 1) fuel

/-- Python `s.find(sub, start)`: the least index `i ≥ start` at which
`sub` occurs in `s`, or `none` (Python's `-1`). -/
def pyFind (s sub : PyStr) (start : Nat) : Option Nat :=
  pyFindAux s sub start (s.length + 1 - start)

theorem pyFindAux_ge (s sub : PyStr) :
    ∀ fuel i j, pyFindAux s sub i fuel = some j → i ≤ j := by
  intro fuel
  induction fuel with
  | zero => intro i j h; simp [pyFindAux] at h
  | succ n ih =>
    intro i j h
    simp only [pyFindAux] at h
    by_cases ho : occursAt s sub i
    · simp [ho] at h; omega
    · simp [ho] at h
      have := ih (i + 1) j h
      omega

theorem pyFindAux_occurs (s sub : PyStr) :
    ∀ fuel i j, pyFindAux s sub i fuel = some j → occursAt s sub j = true := by
  intro fuel
  induction fuel with
  | zero => intro i j h; simp [pyFindAux] at h
  | succ n ih =>
    intro i j h
    simp only [pyFindAux] at h
    by_cases ho : occursAt s sub i
    · simp [ho] at h; subst h; exact ho
    · simp [ho] at h; exact ih (i + 1) j h

theorem pyFind_ge {s sub : PyStr} {start j : Nat}
    (h : pyFind s sub start = some j) : start ≤ j :=
  pyFindAux_ge s sub _ start j h

/-- A verified `isPrefixOf` yields the completing tail. -/
theorem isPrefixOf_exists_append :
    ∀ (l₁ l₂ : PyStr), l₁.isPrefixOf l₂ = true → ∃ t, l₁ ++ t = l₂ := by
  intro l₁
  induction l₁ with
  | nil => intro l₂ _; exact ⟨l₂, rfl⟩
  | cons a l₁ ih =>
    intro l₂ h
    cases l₂ with
    | nil => simp [List.isPrefixOf] at h
    | cons b l₂ =>
      simp only [List.isPrefixOf, Bool.and_eq_true_iff] at h
      rcases h with ⟨hab, htail⟩
      rcases ih l₂ htail with ⟨t, ht⟩
      exact ⟨t, by rw [List.cons_append, ht, eq_of_beq hab]⟩

/-- A successful `occursAt` of a nonempty needle pins down the slice: the
text at `[j, j+len)` is `sub`, and the occurrence fits inside `s`. -/
theorem occursAt_slice {s sub : PyStr} {j : Nat} (hsub : sub ≠ [])
    (h : occursAt s sub j = true) :
    pySlice s j (j + sub.length) = sub ∧ j + sub.length ≤ s.length := by
  unfold occursAt at h
  have hpre := isPrefixOf_exists_append sub (s.drop j) h
  obtain ⟨t, ht⟩ := hpre
  constructor
  · unfold pySlice
    rw [← ht]
    simp
  · have hlen : (s.drop j).length = s.length - j := List.length_drop j s
    have : sub.length ≤ (s.drop j).length := by
      rw [← ht]; simp
    by_cases hj : j ≤ s.length
    · omega
    · exfalso
      have hd : s.drop j = [] := List.drop_eq_nil_of_le (by omega)
      rw [hd] at ht
      have hz : sub.length + t.length = 0 := by
        have := congrArg List.length ht
        simpa using this
      have : 0 < sub.length := List.length_pos.mpr hsub
      omega

/-! ## Extraction data model (`app/services/extraction/extractor.py`) -/

/-- An axis-aligned rectangle `[x0, y0, x1, y1]` in PDF user-space
points. Coordinates are modelled as `Int`: the code only copies them and
takes componentwise `min`/`max`, never other float arithmetic. -/
structure Rect where
  x0 : Int
  y0 : Int
  x1 : Int
  y1 : Int
deriving DecidableEq, Repr

/-- `TextBlock`: a block of text with its bounding box and character
offset range (`char_start`/`char_end` into the full page text). -/
structure TextBlock where
  text : PyStr
  bbox : Rect
  page_number : Nat
  char_start : Nat := 0
  char_end : Nat := 0
deriving DecidableEq, Repr

/-- `PageContent`: extracted content for one page. -/
structure PageContent where
  page_number : Nat
  text : PyStr
  blocks : List TextBlock := []
  ocr_used : Bool := false
deriving DecidableEq, Repr

/-- `PageContent.get_bboxes_for_range`: walk the blocks; skip a block
whose range ends at or before `start`; stop (`break`) at the first block
whose range starts at or after `end`; collect the rest. -/
def PageContent.get_bboxes_for_range (blocks : List TextBlock)
    (start stop : Nat) : List Rect :=
  match blocks with
  | [] => []
  | b :: bs =>
    if b.char_end ≤ start then PageContent.get_bboxes_for_range bs start stop
    else if stop ≤ b.char_start then []
    else b.bbox :: PageContent.get_bboxes_for_range bs start stop

/-- `_MIN_TEXT_THRESHOLD` from `extractor.py`. -/
def MIN_TEXT_THRESHOLD : Nat := 20

/-- One span of the PyMuPDF `page.get_text("dict")` structure, as the
extractor consumes it: its text and its rectangle (already in PDF
points). -/
structure RawSpan where
  text : PyStr
  bbox : Rect
deriving DecidableEq, Repr

/-- The spans the inner loop keeps for one line: text stripped, empty
spans dropped. -/
def keptSpans (line : List RawSpan) : List RawSpan :=
  line.filterMap fun sp =>
    let t := pyStrip sp.text
    if t.isEmpty then none else some { sp with text := t }

/-- The blocks collected by the span loop of `_extract_pdf`, with
placeholder offsets (the page dict is abstracted to its lines of spans;
non-text blocks are already dropped and block boundaries add no
separator beyond the line join). -/
def pageBlocksRaw (pageIdx : Nat) (lines : List (List RawSpan)) :
    List TextBlock :=
  (lines.flatMap keptSpans).map fun sp =>
    { text := sp.text, bbox := sp.bbox, page_number := pageIdx }

/-- `line_texts`: per line with at least one kept span, the kept span
texts joined by single spaces. -/
def lineTexts (lines : List (List RawSpan)) : List PyStr :=
  lines.filterMap fun line =>
    let ts := (keptSpans line).map (·.text)
    if ts.isEmpty then none else some (pyJoin [' '] ts)

/-- `full_text = "\n".join(line_texts)`. -/
def pageFullText (lines : List (List RawSpan)) : PyStr :=
  pyJoin ['\n'] (lineTexts lines)

/-- The offset-assignment loop of `_extract_pdf`: find each block's text
in the full page text scanning forward from `search_from`; on success
record the found range and move `search_from` to the found index (not
past it); on failure assign the current cursor position. -/
def assignOffsets (full : PyStr) : Nat → List TextBlock → List TextBlock
  | _, [] => []
  | searchFrom, b :: bs =>
    match pyFind full b.text searchFrom with
    | some idx =>
      { b with char_start := idx, char_end := idx + b.text.length }
        :: assignOffsets full idx bs
    | none =>
      { b with char_start := searchFrom,
               char_end := searchFrom + b.text.length }
        :: assignOffsets full searchFrom bs

/-- One word of Tesseract's `image_to_data` output, as consumed by the
extractor; its rectangle is the one the code computes from
`left/top/width/height` (the 72/300 pixel→point scaling of `_ocr_page`,
or the 1:1 coordinates of `_extract_image`, is folded into `bbox`,
which no claim quantifies). -/
structure OcrWord where
  text : PyStr
  bbox : Rect
deriving DecidableEq, Repr

/-- The word loop shared by `_ocr_page` and `_extract_image`: strip each
word, skip empties, record `[offset, offset+len)` and advance the
running offset by `len + 1` for the single-space separator. -/
def ocrBlocks (pageIdx : Nat) : Nat → List OcrWord → List TextBlock
  | _, [] => []
  | off, w :: ws =>
    let t := pyStrip w.text
    if t.isEmpty then ocrBlocks pageIdx off ws
    else
      { text := t, bbox := w.bbox, page_number := pageIdx,
        char_start := off, char_end := off + t.length }
        :: ocrBlocks pageIdx (off + t.length + 1) ws

/-- The stripped, nonempty word texts (`text_parts`). -/
def ocrTextParts (ws : List OcrWord) : List PyStr :=
  ws.filterMap fun w =>
    let t := pyStrip w.text
    if t.isEmpty then none else some t

/-- `_ocr_page` / `_extract_image` result: words joined by single
spaces, blocks from the word loop, `ocr_used = True`. -/
def ocrPage (pageIdx : Nat) (ws : List OcrWord) : PageContent :=
  { page_number := pageIdx,
    text := pyJoin [' '] (ocrTextParts ws),
    blocks := ocrBlocks pageIdx 0 ws,
    ocr_used := true }

/-- One page of `TextExtractor._extract_pdf`: assemble the native text
and blocks, then fall back to OCR when `len(full_text.strip())` is below
the threshold (`ocrWords` stands for what Tesseract would return for the
rendered page). -/
def extractPdfPage (pageIdx : Nat) (lines : List (List RawSpan))
    (ocrWords : List OcrWord) : PageContent :=
  let full := pageFullText lines
  let blocks := assignOffsets full 0 (pageBlocksRaw pageIdx lines)
  if (pyStrip full).length < MIN_TEXT_THRESHOLD then
    ocrPage pageIdx ocrWords
  else
    { page_number := pageIdx, text := full, blocks := blocks,
      ocr_used := false }

/-- `TextExtractor._extract_image`: the OCR word loop on the standalone
image (page number 0, 1:1 coordinates). -/
def extractImage (ws : List OcrWord) : PageContent :=
  ocrPage 0 ws

/-! ## Detector (`app/services/detection/detector.py`) -/

/-- `DetectedEntity` from `app/models/document.py`. The Python field
`end` is a reserved word in Lean and is named `stop` here; `confidence`
is in fixed-point units of 1/10000 (so regex confidence `1.0` is
`10000`). -/
structure DetectedEntity where
  entity_type : String
  text : PyStr
  start : Nat
  stop : Nat
  confidence : Nat := 10000
  page : Nat := 0
  source : String := "regex"
  bbox : Option Rect := none
deriving DecidableEq, Repr

/-- One match of the external `re` engine (`pattern.finditer`): its
`group()` text and `start()`/`end()` positions. -/
structure MatchSpan where
  text : PyStr
  start : Nat
  stop : Nat
deriving DecidableEq, Repr

/-- The contract of the `re` engine on the detector's patterns: a match
is a nonempty in-range span and `group()` is exactly the matched slice
(all eleven `_PATTERNS` match at least one character). -/
def WFMatch (t : PyStr) (m : MatchSpan) : Prop :=
  m.start < m.stop ∧ m.stop ≤ t.length ∧ m.text = pySlice t m.start m.stop

instance (t : PyStr) (m : MatchSpan) : Decidable (WFMatch t m) := by
  unfold WFMatch; infer_instance

/-- `PIIDetector._detect_regex`: every match of every pattern becomes an
entity with confidence 1.0 and source `"regex"`. The engine's match
streams (`pattern.finditer(text)` per pattern tag) are the
`patMatches` input. -/
def PIIDetector.detectRegex (page : Nat)
    (patMatches : List (String × List MatchSpan)) : List DetectedEntity :=
  patMatches.flatMap fun pm =>
    pm.2.map fun m =>
      { entity_type := pm.1, text := m.text, start := m.start,
        stop := m.stop, confidence := 10000, page := page,
        source := "regex", bbox := none }

/-- ASCII `\w` (word character) for the concrete SSN matcher. -/
def isWordChar (c : Char) : Bool := c.isAlphanum || c == '_'

/-- `\b` of the `re` engine: positions where exactly one side is a word
character. -/
def boundaryAt (s : PyStr) (i : Nat) : Bool :=
  let before := if i = 0 then false else isWordChar (s.getD (i - 1) ' ')
  let after := if i < s.length then isWordChar (s.getD i ' ') else false
  before != after

/-- The fixed shape `\d{3}-\d{2}-\d{4}` (11 characters). -/
def ssnShape (cs : PyStr) : Bool :=
  match cs with
  | [a, b, c, d, e, f, g, h, i, j, k] =>
    a.isDigit && b.isDigit && c.isDigit && d == '-' &&
    e.isDigit && f.isDigit && g == '-' &&
    h.isDigit && i.isDigit && j.isDigit && k.isDigit
  | _ => false

/-- Does the SSN pattern `\b\d{3}-\d{2}-\d{4}\b` match at position `i`? -/
def ssnMatchAt (s : PyStr) (i : Nat) : Bool :=
  boundaryAt s i && ssnShape (pySlice s i (i + 11)) && boundaryAt s (i + 11)

/-- Left-to-right non-overlapping scan of `finditer` for the
fixed-length SSN pattern (fuel bounds the scan positions). -/
def ssnScan (s : PyStr) : Nat → Nat → List MatchSpan
  | _, 0 => []
  | i, fuel + 1 =>
    if ssnMatchAt s i then
      { text := pySlice s i (i + 11), start := i, stop := i + 11 }
        :: ssnScan s (i + 11) fuel
    else if i < s.length then ssnScan s (i + 1) fuel
    else []

/-- `finditer` for the concrete `SSN` pattern of `_PATTERNS`. -/
def findSSN (s : PyStr) : List MatchSpan :=
  ssnScan s 0 (s.length + 1)

/-- One aggregated entity of the external HuggingFace NER pipeline, as
the detector reads it: `entity_group`, `word`, `score` (fixed-point
1/10000), `start`, `end`. -/
structure NerRaw where
  entity_group : String
  word : PyStr
  score : Nat
  start : Nat
  stop : Nat
deriving DecidableEq, Repr

/-- `_NER_CONFIDENCE_THRESHOLD = 0.90`. -/
def NER_CONFIDENCE_THRESHOLD : Nat := 9000

/-- `_MIN_ENTITY_LENGTH = 3`. -/
def MIN_ENTITY_LENGTH : Nat := 3

/-- `str.upper()` (ASCII model). -/
def pyUpper (s : String) : String := String.mk (s.data.map Char.toUpper)

/-- The chunk origins `range(0, len(text), 450)`. -/
def chunkStarts (n : Nat) : List Nat :=
  (List.range ((n + 449) / 450)).map (· * 450)

/-- The label mapping `{PER: PERSON, LOC: LOCATION, ORG: ORGANIZATION}`
with `.get(label, label)` fallback. -/
def mapLabel (l : String) : String :=
  if l == "PER" then "PERSON"
  else if l == "LOC" then "LOCATION"
  else if l == "ORG" then "ORGANIZATION"
  else l

/-- `PIIDetector._detect_ner`: slice the text into 450-character chunks,
tag each chunk (`tagger` is the external model, a function of the chunk
text), keep `PER`/`LOC`/`ORG` results with stripped word length ≥ 3 and
score ≥ 0.90, and shift offsets by the chunk origin. `round(score, 4)`
is the identity at the model's fixed-point granularity. -/
def PIIDetector.detectNer (t : PyStr) (page : Nat)
    (tagger : PyStr → List NerRaw) : List DetectedEntity :=
  (chunkStarts t.length).flatMap fun cs =>
    let chunk := pySlice t cs (cs + 450)
    (tagger chunk).filterMap fun r =>
      let label := pyUpper r.entity_group
      if !(label == "PER" || label == "LOC" || label == "ORG") then none
      else
        let tc := pyStrip r.word
        if tc.length < MIN_ENTITY_LENGTH then none
        else if r.score < NER_CONFIDENCE_THRESHOLD then none
        else some
          { entity_type := mapLabel label, text := tc,
            start := cs + r.start, stop := cs + r.stop,
            confidence := r.score, page := page, source := "ner",
            bbox := none }

/-- The Python sort key `(e.start, -e.confidence)` as a total preorder:
start ascending, confidence descending. -/
def entLe (a b : DetectedEntity) : Bool :=
  a.start < b.start || (a.start == b.start && b.confidence ≤ a.confidence)

/-- Stable insertion, placing `a` before the first element it does not
strictly follow (together with `sortEnts` this is extensionally
Python's stable `list.sort(key=...)`). -/
def insEnt (a : DetectedEntity) : List DetectedEntity → List DetectedEntity
  | [] => [a]
  | b :: bs => if entLe a b then a :: b :: bs else b :: insEnt a bs

/-- `entities.sort(key=lambda e: (e.start, -e.confidence))`. -/
def sortEnts (l : List DetectedEntity) : List DetectedEntity :=
  l.foldr insEnt []

/-- The keep/drop loop of `_deduplicate`: drop an entity whose `start`
lies before the previously kept entity's `end`; otherwise keep it and it
becomes the new reference. -/
def dedupGo (prev : DetectedEntity) :
    List DetectedEntity → List DetectedEntity
  | [] => []
  | e :: es => if e.start < prev.stop then dedupGo prev es
               else e :: dedupGo e es

/-- `PIIDetector._deduplicate`: sort by `(start, -confidence)`, keep the
first entity, then run the keep/drop loop. -/
def PIIDetector.deduplicate (l : List DetectedEntity) :
    List DetectedEntity :=
  match sortEnts l with
  | [] => []
  | e :: es => e :: dedupGo e es

/-- `PIIDetector.detect`: regex entities, then NER entities when the
model is loaded, then deduplication. -/
def PIIDetector.detect (t : PyStr) (page : Nat)
    (patMatches : List (String × List MatchSpan)) (nerLoaded : Bool)
    (tagger : PyStr → List NerRaw) : List DetectedEntity :=
  PIIDetector.deduplicate
    (PIIDetector.detectRegex page patMatches ++
      (if nerLoaded then PIIDetector.detectNer t page tagger else []))

/-! ## Offset→bbox resolver (step 3b of `Pipeline.run`) -/

/-- Python `min` over a nonempty sequence, given as head and tail. -/
def pyMinI (x : Int) (xs : List Int) : Int := xs.foldl min x

/-- Python `max` over a nonempty sequence, given as head and tail. -/
def pyMaxI (x : Int) (xs : List Int) : Int := xs.foldl max x

/-- The multi-bbox merge of `Pipeline.run`: `min x0/y0`, `max x1/y1`
over all collected rectangles. -/
def mergeRects (r : Rect) (rs : List Rect) : Rect :=
  { x0 := pyMinI r.x0 (rs.map (·.x0)),
    y0 := pyMinI r.y0 (rs.map (·.y0)),
    x1 := pyMaxI r.x1 (rs.map (·.x1)),
    y1 := pyMaxI r.y1 (rs.map (·.y1)) }

/-- The per-entity body of step 3b of `Pipeline.run`: skip entities that
already carry a bbox or whose page is missing from the page map;
otherwise collect the bboxes for the entity's range and assign the
single rectangle verbatim or the merged rectangle. -/
def resolveEntity (pages : List PageContent) (e : DetectedEntity) :
    DetectedEntity :=
  match e.bbox with
  | some _ => e
  | none =>
    match pages.find? (fun p => p.page_number == e.page) with
    | none => e
    | some pc =>
      match PageContent.get_bboxes_for_range pc.blocks e.start e.stop with
      | [] => e
      | [r] => { e with bbox := some r }
      | r :: rs => { e with bbox := some (mergeRects r rs) }

/-! ## Redactor (`app/services/redaction/redactor.py`) -/

/-- The redaction annotations `Redactor.redact` queues for one entity.
`numPages` is `len(doc)`; `searchFor` is PyMuPDF's
`page.search_for(text)` (the external occurrence search, a function of
page index and needle). With a bbox the rectangle is annotated directly;
without one, entities shorter than 4 characters are skipped, otherwise
only the first search match is annotated. -/
def entityAnnots (numPages : Nat) (searchFor : Nat → PyStr → List Rect)
    (e : DetectedEntity) : List (Nat × Rect) :=
  if numPages ≤ e.page then []
  else
    match e.bbox with
    | some r => [(e.page, r)]
    | none =>
      if e.text.length < 4 then []
      else
        match searchFor e.page e.text with
        | [] => []
        | r :: _ => [(e.page, r)]

/-- All annotations queued by `Redactor.redact` over the entity list. -/
def redactAnnots (numPages : Nat) (searchFor : Nat → PyStr → List Rect)
    (entities : List DetectedEntity) : List (Nat × Rect) :=
  entities.flatMap (entityAnnots numPages searchFor)

/-! ## Validator (`app/core/validator.py`) -/

/-- What PyMuPDF reports about a PDF the validator can open. -/
structure PdfInfo where
  is_encrypted : Bool
  pageCount : Nat
deriving DecidableEq, Repr

/-- The facts about one input file that the validator's gates consult;
the results of the external probes (libmagic sniff, `fitz.open`) are
carried as `Except` values (`.error` = the probe raised, with its
message). -/
structure FileInput where
  suffix : String
  mime : Except String String
  size : Nat
  pdf : Except String PdfInfo
deriving Repr

/-- `str.lower()` (ASCII model). -/
def pyLower (s : String) : String := String.mk (s.data.map Char.toLower)

def ALLOWED_EXTENSIONS : List String :=
  [".pdf", ".jpg", ".jpeg", ".png", ".tiff", ".tif"]

def ALLOWED_MIMES : List String :=
  ["application/pdf", "image/jpeg", "image/png", "image/tiff"]

def MAX_PDF_PAGES : Nat := 50

/-- Reason of gate 1 (the `Accepted: {...}` tail is elided). -/
def extReason (f : FileInput) : String :=
  "Extension '" ++ f.suffix ++ "' not allowed"

/-- Reason of gate 2. -/
def mimeReason (f : FileInput) : String :=
  match f.mime with
  | .error e => "MIME detection failed: " ++ e
  | .ok m => "MIME type '" ++ m ++ "' not allowed"

/-- Reason of gate 3 (the formatted sizes are elided). -/
def sizeReason : String := "File too large"

/-- Reason of gate 4. -/
def encReason (f : FileInput) : String :=
  match f.pdf with
  | .error e => "Cannot open PDF: " ++ e
  | .ok _ => "PDF is encrypted / password-protected"

/-- Reason of gate 5. -/
def pagesReason (f : FileInput) : String :=
  match f.pdf with
  | .error e => e
  | .ok d => "PDF has " ++ toString d.pageCount ++
      " pages, exceeds 50-page limit"

/-- Is the file a PDF for the purpose of the PDF-only gates? -/
def isPdfSuffix (f : FileInput) : Bool := pyLower f.suffix == ".pdf"

/-- Gate 1 passes: the lowercased extension is whitelisted. -/
def extOK (f : FileInput) : Bool :=
  ALLOWED_EXTENSIONS.contains (pyLower f.suffix)

/-- Gate 2 passes: the sniff succeeded and the MIME is whitelisted. -/
def mimeOK (f : FileInput) : Bool :=
  match f.mime with
  | .ok m => ALLOWED_MIMES.contains m
  | .error _ => false

/-- Gate 3 passes: `size ≤ max_size_bytes` (the code raises on
`size > max`). -/
def sizeOK (maxSizeBytes : Nat) (f : FileInput) : Bool :=
  f.size ≤ maxSizeBytes

/-- Gate 4 passes: the PDF opens and `is_encrypted` is false. -/
def encOK (f : FileInput) : Bool :=
  match f.pdf with
  | .ok d => !d.is_encrypted
  | .error _ => false

/-- Gate 5 passes: the PDF opens and has at most 50 pages. -/
def pagesOK (f : FileInput) : Bool :=
  match f.pdf with
  | .ok d => d.pageCount ≤ MAX_PDF_PAGES
  | .error _ => false

/-- Gate 1 (`_check_extension`): raise unless the extension is
whitelisted. -/
def checkExtension (f : FileInput) : Except String Unit :=
  if !extOK f then .error (extReason f) else .ok ()

/-- Gate 2 (`_check_mime`): raise when the sniff itself failed or the
sniffed MIME is not whitelisted (`mimeReason` carries the matching
message). -/
def checkMime (f : FileInput) : Except String Unit :=
  if !mimeOK f then .error (mimeReason f) else .ok ()

/-- Gate 3 (`_check_size`): raise on `size > max_size_bytes`. -/
def checkSize (maxSizeBytes : Nat) (f : FileInput) : Except String Unit :=
  if !sizeOK maxSizeBytes f then .error sizeReason else .ok ()

/-- Gate 4 (`_check_encryption`): raise when the PDF cannot be opened
(`fitz.FileDataError` is converted) or is encrypted (`encReason`
carries the matching message). -/
def checkEncryption (f : FileInput) : Except String Unit :=
  if !encOK f then .error (encReason f) else .ok ()

/-- Gate 5 (`_check_page_count`): raise on more than 50 pages (the open
error case is unreachable after gate 4: there the code would let the
raw `fitz` exception propagate). -/
def checkPageCount (f : FileInput) : Except String Unit :=
  match f.pdf with
  | .error e => .error e
  | .ok d => if MAX_PDF_PAGES < d.pageCount then .error (pagesReason f)
             else .ok ()

/-- `FileValidator.validate`: the three cheap gates, then the two
PDF-only gates, then `True`. A raised `ValidationError` is the
`.error` branch. -/
def FileValidator.validate (maxSizeBytes : Nat) (f : FileInput) :
    Except String Bool := do
  checkExtension f
  checkMime f
  checkSize maxSizeBytes f
  if pyLower f.suffix == ".pdf" then
    checkEncryption f
    checkPageCount f
  pure true

/-- The claim's reading of `validate`, written as a first-failure
cascade in the stated gate order (the refinement target for C8). -/
def validateSpec (maxSizeBytes : Nat) (f : FileInput) :
    Except String Bool :=
  if !extOK f then .error (extReason f)
  else if !mimeOK f then .error (mimeReason f)
  else if !sizeOK maxSizeBytes f then .error sizeReason
  else if isPdfSuffix f && !encOK f then .error (encReason f)
  else if isPdfSuffix f && !pagesOK f then .error (pagesReason f)
  else .ok true

/-! ## Signer (`app/services/signing/signer.py`)

Bytes are `List Nat` (each element a byte value). The SHA-256 digest
and the ECDSA primitives live in external libraries (`hashlib`,
`cryptography`) and are parameters of the model; the JSON value stored
in the `keywords` metadata field is carried as a parsed value, with
`json.dumps`/`json.loads` round-tripping on values `dumps` produced. -/

/-- A parsed JSON value (what `json.loads` can return). -/
inductive JVal where
  | jnull : JVal
  | jbool : Bool → JVal
  | jnum : Int → JVal
  | jstr : String → JVal
  | jarr : List JVal → JVal
  | jobj : List (String × JVal) → JVal

/-- The state of the PDF `keywords` metadata field as `verify` reads it:
absent, present but not valid JSON, or a parsed JSON value. -/
inductive KwState where
  | absent : KwState
  | invalidJson : KwState
  | val : JVal → KwState

/-- The exceptions `verify` can let escape or must catch. -/
inductive PyErr where
  | keyError : PyErr
  | typeError : PyErr
  | valueError : PyErr
deriving DecidableEq, Repr

/-- `metadata.get("keywords", "{}")` followed by `json.loads`: `none`
signals a `JSONDecodeError`. -/
def kwLoads : KwState → Option JVal
  | .absent => some (.jobj [])
  | .invalidJson => none
  | .val j => some j

/-- Python subscripting `v["k"]`: `KeyError` on an object without the
key, `TypeError` on any non-object. -/
def jGet (v : JVal) (k : String) : Except PyErr JVal :=
  match v with
  | .jobj kvs =>
    match kvs.lookup k with
    | some w => .ok w
    | none => .error .keyError
  | _ => .error .typeError

/-- Lowercase hex digit for a value below 16 (codepoint arithmetic:
`'0'` is 48, `'a'` is 97). -/
def hexDigitChar (n : Nat) : Char :=
  if n < 10 then Char.ofNat (48 + n) else Char.ofNat (87 + n)

/-- `bytes.hex()`: two lowercase hex digits per byte. -/
def hexEncode (bs : List Nat) : String :=
  String.mk (bs.flatMap fun b => [hexDigitChar (b / 16), hexDigitChar (b % 16)])

/-- Value of one hex digit, either case, as `bytes.fromhex` accepts
(codepoint arithmetic: `'0'` is 48, `'a'` is 97, `'A'` is 65). -/
def hexVal (c : Char) : Option Nat :=
  if c.isDigit then some (c.toNat - 48)
  else if 'a' ≤ c && c ≤ 'f' then some (c.toNat - 87)
  else if 'A' ≤ c && c ≤ 'F' then some (c.toNat - 55)
  else none

/-- `bytes.fromhex` on a list of characters: pairs of hex digits, else
`ValueError` (`none`). -/
def hexDecodeList : List Char → Option (List Nat)
  | [] => some []
  | [_] => none
  | c1 :: c2 :: rest =>
    match hexVal c1, hexVal c2, hexDecodeList rest with
    | some h, some l, some bs => some ((h * 16 + l) :: bs)
    | _, _, _ => none

/-- `bytes.fromhex(s)` (`none` = `ValueError`). -/
def hexDecode (s : String) : Option (List Nat) := hexDecodeList s.data

/-- `str.encode()` (ASCII model: the strings it is applied to are hex
digests). -/
def strBytes (s : String) : List Nat := s.data.map Char.toNat

/-- The JSON object `DocumentSigner.sign` stores in the `keywords`
metadata field. -/
def signKeywords (sha256hex : List Nat → String)
    (ecdsaSign : List Nat → List Nat) (data : List Nat)
    (signedAt : String) : JVal :=
  let fileHash := sha256hex data
  let signature := ecdsaSign (strBytes fileHash)
  .jobj [("secure_doc_ai_signature", .jstr (hexEncode signature)),
         ("sha256", .jstr fileHash),
         ("signed_at", .jstr signedAt),
         ("algorithm", .jstr "ECDSA-P256-SHA256")]

/-- `DocumentSigner.sign`, projected onto the `keywords` field of the
output PDF: hash the input bytes, sign the lowercase-hex digest's
encoding with the resident key, embed signature and hash (the by-then
parsed value of the stored JSON string). -/
def DocumentSigner.sign (sha256hex : List Nat → String)
    (ecdsaSign : List Nat → List Nat) (data : List Nat)
    (signedAt : String) : KwState :=
  .val (signKeywords sha256hex ecdsaSign data signedAt)

/-- `DocumentSigner.verify`: re-read the keywords metadata, recover the
stored signature and hash, verify the signature against the stored
hash's encoding with the resident public key. `JSONDecodeError` and
`KeyError` are caught (→ `False`); any exception from the verification
call is caught (→ `False`); `TypeError`/`ValueError` from subscripting a
non-object, a non-string signature value, non-hex signature text or a
non-string hash propagate (`.error`). -/
def DocumentSigner.verify (ecdsaVerify : List Nat → List Nat → Bool)
    (kw : KwState) : Except PyErr Bool :=
  match kwLoads kw with
  | none => .ok false
  | some j =>
    match jGet j "secure_doc_ai_signature" with
    | .error .keyError => .ok false
    | .error e => .error e
    | .ok sv =>
      match sv with
      | .jstr s =>
        match hexDecode s with
        | none => .error .valueError
        | some storedSig =>
          match jGet j "sha256" with
          | .error .keyError => .ok false
          | .error e => .error e
          | .ok hv =>
            match hv with
            | .jstr storedHash =>
              .ok (ecdsaVerify storedSig (strBytes storedHash))
            | _ => .error .typeError
      | _ => .error .typeError

/-! ## Orchestrator (`app/core/pipeline.py`) -/

/-- `JobStatus` from `app/models/document.py`. -/
inductive JobStatus where
  | queued | validating | extracting | detecting | redacting
  | signing | auditing | completed | failed
deriving DecidableEq, Repr

/-- The facts about one `Pipeline.run` call the audit claim needs: the
terminal status and error, the entity count recorded, how many times
`self.auditor.log` ran before `run` returned, and whether the input was
moved to the error directory. -/
structure RunOutcome where
  status : JobStatus
  error : Option String
  entity_count : Nat
  auditWrites : Nat
  movedToErrorDir : Bool
deriving DecidableEq, Repr

/-- `Pipeline.run`, projected onto `RunOutcome`. On a `ValidationError`
the file is rejected to the error directory and a `FAILED` result is
returned at once — without a call to `self.auditor.log`; on the
successful path `self.auditor.log(result)` runs exactly once before the
`COMPLETED` result is returned. -/
def Pipeline.run (validation : Except String Unit)
    (entities : List DetectedEntity) : RunOutcome :=
  match validation with
  | .error msg =>
    { status := .failed, error := some msg, entity_count := 0,
      auditWrites := 0, movedToErrorDir := true }
  | .ok _ =>
    { status := .completed, error := none,
      entity_count := entities.length, auditWrites := 1,
      movedToErrorDir := false }

/-! ## Claim C1 -/

/-- C1: the claim says every terminal outcome of `Pipeline.run` —
including failure at the validation gate — writes exactly one audit
record via `auditor.log`. The code's validation-failure branch returns
the `FAILED` result without calling `auditor.log` at all: at the
encrypted-PDF failing input the run terminates with status `failed`,
the file moved to the error directory, and zero audit writes, while the
successful path writes one. -/
theorem C1_validation_failure_skips_audit :
    (Pipeline.run (.error "PDF is encrypted / password-protected")
        []).status = .failed ∧
    (Pipeline.run (.error "PDF is encrypted / password-protected")
        []).movedToErrorDir = true ∧
    (Pipeline.run (.error "PDF is encrypted / password-protected")
        []).auditWrites = 0 ∧
    (Pipeline.run (.ok ()) []).auditWrites = 1 :=
  ⟨rfl, rfl, rfl, rfl⟩

/-! ## Claim C2 -/

/-- A throwaway rectangle for concrete inputs. -/
def rect0 : Rect := { x0 := 0, y0 := 0, x1 := 1, y1 := 1 }

/-- A page whose assembled text is `"a b c d e f g h i j k"`:
21 characters once assembled (none of them leading or trailing
whitespace), but only 11 non-whitespace characters. -/
def c2lines : List (List RawSpan) :=
  [[{ text := ['a'], bbox := rect0 }, { text := ['b'], bbox := rect0 },
    { text := ['c'], bbox := rect0 }, { text := ['d'], bbox := rect0 },
    { text := ['e'], bbox := rect0 }, { text := ['f'], bbox := rect0 },
    { text := ['g'], bbox := rect0 }, { text := ['h'], bbox := rect0 },
    { text := ['i'], bbox := rect0 }, { text := ['j'], bbox := rect0 },
    { text := ['k'], bbox := rect0 }]]

/-- C2 counterexample: a page with fewer than 20 non-whitespace
characters in its assembled text that the extractor does **not** route
to OCR — `len(full_text.strip())` counts the interior spaces, so the
code emits the native text with `ocr_used = false` where the claim
requires the OCR branch. -/
theorem C2_counterexample_internal_whitespace :
    (extractPdfPage 0 c2lines []).ocr_used = false ∧
    nonWSCount (pageFullText c2lines) < MIN_TEXT_THRESHOLD := by
  constructor
  · rfl
  · decide

/-- C2 (amended): a page is routed to the OCR branch (and emitted with
`ocr_used = true`) if and only if the assembled native page text,
stripped of leading and trailing whitespace only, has fewer than 20
characters — interior whitespace counts toward the threshold. -/
theorem C2_ocr_iff_stripped_length_below_threshold :
    ∀ (pageIdx : Nat) (lines : List (List RawSpan))
      (ocrWords : List OcrWord),
      (extractPdfPage pageIdx lines ocrWords).ocr_used = true ↔
        (pyStrip (pageFullText lines)).length < MIN_TEXT_THRESHOLD := by
  intro pageIdx lines ocrWords
  by_cases h : (pyStrip (pageFullText lines)).length < MIN_TEXT_THRESHOLD
  · simp [extractPdfPage, h, ocrPage]
  · simp [extractPdfPage, h]

/-! ## Claim C8 -/

/-- When gate 4 passed, gate 5 is the `pagesOK` test with the
`pagesReason` message. -/
theorem checkPageCount_of_encOK (f : FileInput) (h : encOK f = true) :
    checkPageCount f =
      if !pagesOK f then .error (pagesReason f) else .ok () := by
  unfold encOK at h
  unfold checkPageCount pagesOK
  cases hp : f.pdf with
  | error e => rw [hp] at h; simp at h
  | ok d =>
    by_cases hc : d.pageCount ≤ MAX_PDF_PAGES
    · simp [hc, Nat.not_lt.mpr hc]
    · simp [hc, Nat.lt_of_not_le hc]

/-- C8: `validate` returns `True` exactly when every applicable gate
passes, and otherwise fails with the reason of the first failing gate,
the gates being evaluated in the fixed order extension, sniffed MIME,
size, then (PDF only) encryption and page count: `validate` equals the
first-failure cascade `validateSpec` written in that order, and
succeeds iff all applicable gates pass. -/
theorem C8_validate_first_failure_cascade :
    ∀ (maxSizeBytes : Nat) (f : FileInput),
      FileValidator.validate maxSizeBytes f = validateSpec maxSizeBytes f ∧
      (FileValidator.validate maxSizeBytes f = .ok true ↔
        (extOK f = true ∧ mimeOK f = true ∧
          sizeOK maxSizeBytes f = true ∧
          (isPdfSuffix f = true → encOK f = true ∧ pagesOK f = true))) := by
  intro m f
  have hpdf : (pyLower f.suffix == ".pdf") = isPdfSuffix f := rfl
  by_cases h1 : extOK f
  case neg =>
    simp [FileValidator.validate, validateSpec, checkExtension, h1,
      Bind.bind, Except.bind]
  case pos =>
  by_cases h2 : mimeOK f
  case neg =>
    simp [FileValidator.validate, validateSpec, checkExtension, checkMime,
      h1, h2, Bind.bind, Except.bind]
  case pos =>
  by_cases h3 : sizeOK m f
  case neg =>
    simp [FileValidator.validate, validateSpec, checkExtension, checkMime,
      checkSize, h1, h2, h3, Bind.bind, Except.bind]
  case pos =>
  by_cases hp : isPdfSuffix f
  case neg =>
    simp [FileValidator.validate, validateSpec, checkExtension, checkMime,
      checkSize, h1, h2, h3, hpdf, hp, Bind.bind, Except.bind, Pure.pure,
      Except.pure]
  case pos =>
  by_cases h4 : encOK f
  case neg =>
    simp [FileValidator.validate, validateSpec, checkExtension, checkMime,
      checkSize, checkEncryption, h1, h2, h3, hpdf, hp, h4, Bind.bind,
      Except.bind]
  case pos =>
  by_cases h5 : pagesOK f
  all_goals
    simp [FileValidator.validate, validateSpec, checkExtension, checkMime,
      checkSize, checkEncryption, checkPageCount_of_encOK f h4, h1, h2,
      h3, hpdf, hp, h4, h5, Bind.bind, Except.bind, Pure.pure, Except.pure]

/-! ## Claim C9 -/

/-- A chain starting lower still links up. -/
theorem chain_le_weaken {m n : Nat} {l : List Nat}
    (h : List.Chain (· ≤ ·) m l) (hnm : n ≤ m) :
    List.Chain (· ≤ ·) n l := by
  cases l with
  | nil => exact List.Chain.nil
  | cons x xs =>
    rcases List.chain_cons.mp h with ⟨hx, hxs⟩
    exact List.chain_cons.mpr ⟨le_trans hnm hx, hxs⟩

/-- Dropping the base of a chain leaves a chain. -/
theorem chain_to_chain' {α : Type} {R : α → α → Prop} {a : α} :
    ∀ {l : List α}, List.Chain R a l → List.Chain' R l
  | [], _ => trivial
  | _ :: _, h => (List.chain_cons.mp h).2

/-- Every block emitted by the offset-assignment loop satisfies
`char_end = char_start + len(text)` (both the found and the fallback
branch set the range that way). -/
theorem assignOffsets_len :
    ∀ (bs : List TextBlock) (full : PyStr) (sf : Nat),
      ∀ b ∈ assignOffsets full sf bs,
        b.char_end = b.char_start + b.text.length := by
  intro bs
  induction bs with
  | nil => intro full sf b hb; simp [assignOffsets] at hb
  | cons x xs ih =>
    intro full sf b hb
    unfold assignOffsets at hb
    cases hf : pyFind full x.text sf with
    | some idx =>
      rw [hf] at hb
      rcases List.mem_cons.mp hb with h | h
      · subst h; rfl
      · exact ih full idx b h
    | none =>
      rw [hf] at hb
      rcases List.mem_cons.mp hb with h | h
      · subst h; rfl
      · exact ih full sf b h

/-- The `char_start` values emitted by the offset-assignment loop chain
upward from the cursor: a found index is `≥ search_from` and becomes
the new cursor, a fallback reuses the cursor. -/
theorem assignOffsets_chainStarts :
    ∀ (bs : List TextBlock) (full : PyStr) (sf : Nat),
      List.Chain (· ≤ ·) sf
        ((assignOffsets full sf bs).map (·.char_start)) := by
  intro bs
  induction bs with
  | nil => intro full sf; simp [assignOffsets]
  | cons x xs ih =>
    intro full sf
    unfold assignOffsets
    cases hf : pyFind full x.text sf with
    | some idx =>
      simp only [List.map_cons]
      exact List.chain_cons.mpr ⟨pyFind_ge hf, ih full idx⟩
    | none =>
      simp only [List.map_cons]
      exact List.chain_cons.mpr ⟨le_refl sf, ih full sf⟩

/-- Every block emitted by the OCR word loop satisfies
`char_end = char_start + len(text)`. -/
theorem ocrBlocks_len :
    ∀ (ws : List OcrWord) (pageIdx off : Nat),
      ∀ b ∈ ocrBlocks pageIdx off ws,
        b.char_end = b.char_start + b.text.length := by
  intro ws
  induction ws with
  | nil => intro pageIdx off b hb; simp [ocrBlocks] at hb
  | cons w rest ih =>
    intro pageIdx off b hb
    unfold ocrBlocks at hb
    by_cases he : (pyStrip w.text).isEmpty
    · simp only [he, if_true] at hb
      exact ih pageIdx off b hb
    · simp only [he, if_false] at hb
      rcases List.mem_cons.mp hb with h | h
      · subst h; rfl
      · exact ih pageIdx _ b h

/-- The `char_start` values of the OCR word loop chain upward from the
running offset. -/
theorem ocrBlocks_chainStarts :
    ∀ (ws : List OcrWord) (pageIdx off : Nat),
      List.Chain (· ≤ ·) off
        ((ocrBlocks pageIdx off ws).map (·.char_start)) := by
  intro ws
  induction ws with
  | nil => intro pageIdx off; simp [ocrBlocks]
  | cons w rest ih =>
    intro pageIdx off
    unfold ocrBlocks
    by_cases he : (pyStrip w.text).isEmpty
    · simp only [he, if_true]
      exact ih pageIdx off
    · simp only [he, if_false, List.map_cons]
      refine List.chain_cons.mpr ⟨le_refl off, ?_⟩
      exact chain_le_weaken (ih pageIdx _)
        (by show off ≤ off + (pyStrip w.text).length + 1; omega)

/-- Blocks of a `PageContent` are non-decreasing in `char_start`. -/
def blocksMonotone (pc : PageContent) : Prop :=
  List.Chain' (fun a b : TextBlock => a.char_start ≤ b.char_start) pc.blocks

/-- The two C9 invariants for one emitted page. -/
def blocksWF (pc : PageContent) : Prop :=
  blocksMonotone pc ∧
    ∀ b ∈ pc.blocks, b.char_end - b.char_start = b.text.length

theorem blocksWF_ocrPage (pageIdx : Nat) (ws : List OcrWord) :
    blocksWF (ocrPage pageIdx ws) := by
  constructor
  · have h := ocrBlocks_chainStarts ws pageIdx 0
    have h' := chain_to_chain' h
    exact (List.chain'_map (fun b : TextBlock => b.char_start)).mp h'
  · intro b hb
    have := ocrBlocks_len ws pageIdx 0 b hb
    omega

/-- C9: on every page the extractor emits — native PDF path, OCR
fallback path, and standalone image path alike — the blocks' character
ranges are non-decreasing in `char_start`, and every block satisfies
`char_end - char_start = len(text)`. -/
theorem C9_blocks_monotone_and_sized :
    ∀ (pageIdx : Nat) (lines : List (List RawSpan))
      (ocrWords : List OcrWord),
      blocksWF (extractPdfPage pageIdx lines ocrWords) ∧
      blocksWF (extractImage ocrWords) := by
  intro pageIdx lines ocrWords
  constructor
  · unfold extractPdfPage
    by_cases h : (pyStrip (pageFullText lines)).length < MIN_TEXT_THRESHOLD
    · simp only [h, if_true]
      exact blocksWF_ocrPage pageIdx ocrWords
    · simp only [h, if_false]
      constructor
      · have hc := assignOffsets_chainStarts
          (pageBlocksRaw pageIdx lines) (pageFullText lines) 0
        exact (List.chain'_map (fun b : TextBlock => b.char_start)).mp
          (chain_to_chain' hc)
      · intro b hb
        have := assignOffsets_len (pageBlocksRaw pageIdx lines)
          (pageFullText lines) 0 b hb
        omega
  · exact blocksWF_ocrPage 0 ocrWords

/-! ## Claim C4 -/

/-- Does block `b` overlap the half-open character range
`[start, stop)`? -/
def overlapsRange (start stop : Nat) (b : TextBlock) : Bool :=
  decide (start < b.char_end) && decide (b.char_start < stop)

/-- On blocks sorted by `char_start` — which the extractor guarantees —
the early `break` of `get_bboxes_for_range` is harmless: the collected
rectangles are exactly those of the overlapping blocks, in order. -/
theorem get_bboxes_eq_filter (start stop : Nat) :
    ∀ (blocks : List TextBlock),
      List.Chain' (fun a b : TextBlock => a.char_start ≤ b.char_start)
        blocks →
      PageContent.get_bboxes_for_range blocks start stop =
        (blocks.filter (overlapsRange start stop)).map (·.bbox) := by
  haveI : IsTrans TextBlock
      (fun a b : TextBlock => a.char_start ≤ b.char_start) :=
    ⟨fun _ _ _ h1 h2 => le_trans h1 h2⟩
  intro blocks
  induction blocks with
  | nil => intro _; rfl
  | cons b bs ih =>
    intro hmono
    have hpw := List.chain'_iff_pairwise.mp hmono
    rcases List.pairwise_cons.mp hpw with ⟨hb, hbs⟩
    have hmono' := List.chain'_iff_pairwise.mpr hbs
    unfold PageContent.get_bboxes_for_range
    by_cases h1 : b.char_end ≤ start
    · have : overlapsRange start stop b = false := by
        unfold overlapsRange
        simp [Nat.not_lt.mpr h1]
      simp only [h1, if_true, List.filter_cons, this]
      exact ih hmono'
    · by_cases h2 : stop ≤ b.char_start
      · simp only [h1, if_false, h2, if_true]
        have hall : (b :: bs).filter (overlapsRange start stop) = [] := by
          rw [List.filter_eq_nil_iff]
          intro x hx
          rcases List.mem_cons.mp hx with h | h
          · subst h
            unfold overlapsRange
            simp [Nat.not_lt.mpr h2]
          · have hxs := hb x h
            unfold overlapsRange
            have : ¬ x.char_start < stop := by omega
            simp [this]
        rw [hall]
        rfl
      · have hov : overlapsRange start stop b = true := by
          unfold overlapsRange
          simp [Nat.lt_of_not_le h1, Nat.lt_of_not_le h2]
        simp only [h1, if_false, h2, List.filter_cons, hov]
        simp only [if_true, List.map_cons]
        rw [ih hmono']

/-- C4: for an entity without a bbox whose page the resolver finds, the
assigned bbox is exactly the axis-aligned union (componentwise min of
`x0,y0`, max of `x1,y1`) of the rectangles of the blocks overlapping
`[start, end)` on the entity's page: with no overlapping block the
entity (and its unset bbox) is unchanged, with exactly one it gets that
block's rectangle verbatim, and in general it gets the fold of
`min`/`max` over all overlapping rectangles. -/
theorem C4_resolver_assigns_union (pages : List PageContent)
    (e : DetectedEntity) (pc : PageContent)
    (hfind : pages.find? (fun p => p.page_number == e.page) = some pc)
    (hmono : List.Chain' (fun a b : TextBlock => a.char_start ≤ b.char_start)
      pc.blocks)
    (hb : e.bbox = none) :
    ((pc.blocks.filter (overlapsRange e.start e.stop)) = [] →
      resolveEntity pages e = e) ∧
    (∀ b, pc.blocks.filter (overlapsRange e.start e.stop) = [b] →
      (resolveEntity pages e).bbox = some b.bbox) ∧
    (∀ r rs,
      (pc.blocks.filter (overlapsRange e.start e.stop)).map (·.bbox)
        = r :: rs →
      (resolveEntity pages e).bbox = some (mergeRects r rs)) := by
  have hget := get_bboxes_eq_filter e.start e.stop pc.blocks hmono
  have hres : resolveEntity pages e =
      (match PageContent.get_bboxes_for_range pc.blocks e.start e.stop with
       | [] => e
       | [r] => { e with bbox := some r }
       | r :: rs => { e with bbox := some (mergeRects r rs) }) := by
    unfold resolveEntity
    rw [hb, hfind]
  refine ⟨?_, ?_, ?_⟩
  · intro hnil
    rw [hres, hget, hnil]
    rfl
  · intro b hone
    rw [hres, hget, hone]
    rfl
  · intro r rs hcons
    rw [hres, hget, hcons]
    cases rs with
    | nil =>
      show some r = some (mergeRects r [])
      unfold mergeRects pyMinI pyMaxI
      simp
    | cons r2 rs' => rfl

/-- C4 witness: a concrete two-block page where the entity's range
straddles both blocks and the resolver assigns the merged rectangle
(and the filter/union description agrees). -/
theorem C4_resolver_assigns_union_witness :
    (let blk1 : TextBlock :=
      { text := ['a', 'b'], bbox := { x0 := 10, y0 := 20, x1 := 30, y1 := 40 },
        page_number := 0, char_start := 0, char_end := 2 }
    let blk2 : TextBlock :=
      { text := ['c', 'd'], bbox := { x0 := 25, y0 := 15, x1 := 50, y1 := 35 },
        page_number := 0, char_start := 3, char_end := 5 }
    let pc : PageContent :=
      { page_number := 0, text := ['a', 'b', ' ', 'c', 'd'],
        blocks := [blk1, blk2], ocr_used := false }
    let e : DetectedEntity :=
      { entity_type := "SSN", text := ['b', ' ', 'c'], start := 1,
        stop := 4, confidence := 10000, page := 0, source := "regex",
        bbox := none }
    ∀ r rs,
      (pc.blocks.filter (overlapsRange e.start e.stop)).map (·.bbox)
        = r :: rs →
      (resolveEntity [pc] e).bbox = some (mergeRects r rs)) := by
  intro blk1 blk2 pc e
  exact (C4_resolver_assigns_union [pc] e pc (by decide)
    (List.chain'_cons.mpr ⟨by decide, List.Chain.nil⟩) (by decide)).2.2

/-! ## Claim C5 -/

theorem insEnt_mem {x a : DetectedEntity} :
    ∀ {l : List DetectedEntity}, x ∈ insEnt a l → x = a ∨ x ∈ l := by
  intro l
  induction l with
  | nil => intro h; simpa [insEnt] using h
  | cons b bs ih =>
    unfold insEnt
    by_cases hle : entLe a b
    · simp only [hle, if_true]
      intro h
      rcases List.mem_cons.mp h with h | h
      · exact Or.inl h
      · exact Or.inr h
    · simp only [hle, if_false]
      intro h
      rcases List.mem_cons.mp h with h | h
      · exact Or.inr (List.mem_cons.mpr (Or.inl h))
      · rcases ih h with h' | h'
        · exact Or.inl h'
        · exact Or.inr (List.mem_cons_of_mem _ h')

theorem sortEnts_mem {x : DetectedEntity} :
    ∀ {l : List DetectedEntity}, x ∈ sortEnts l → x ∈ l := by
  intro l
  induction l with
  | nil => intro h; simp [sortEnts] at h
  | cons a as ih =>
    intro h
    have h' : x ∈ insEnt a (sortEnts as) := h
    rcases insEnt_mem h' with h'' | h''
    · simp [h'']
    · exact List.mem_cons_of_mem _ (ih h'')

theorem dedupGo_mem {x : DetectedEntity} :
    ∀ (l : List DetectedEntity) (prev : DetectedEntity),
      x ∈ dedupGo prev l → x ∈ l := by
  intro l
  induction l with
  | nil => intro prev h; simp [dedupGo] at h
  | cons e es ih =>
    intro prev h
    unfold dedupGo at h
    by_cases hd : e.start < prev.stop
    · simp only [hd, if_true] at h
      exact List.mem_cons_of_mem _ (ih prev h)
    · simp only [hd, if_false] at h
      rcases List.mem_cons.mp h with h' | h'
      · simp [h']
      · exact List.mem_cons_of_mem _ (ih e h')

/-- Everything the keep/drop loop keeps chains after its reference
entity: each kept entity starts at or after the previous kept
entity's `end`. -/
theorem dedupGo_chain :
    ∀ (l : List DetectedEntity) (prev : DetectedEntity),
      List.Chain (fun a b : DetectedEntity => a.stop ≤ b.start) prev
        (dedupGo prev l) := by
  intro l
  induction l with
  | nil => intro prev; simp [dedupGo]
  | cons e es ih =>
    intro prev
    unfold dedupGo
    by_cases hd : e.start < prev.stop
    · simp only [hd, if_true]
      exact ih prev
    · simp only [hd, if_false]
      exact List.chain_cons.mpr ⟨Nat.le_of_not_lt hd, ih e⟩

/-- A start-after-end chain of well-formed entities is pairwise: the
relation is transitive across entities whose `start ≤ end`. -/
theorem chain_stop_start_pairwise :
    ∀ (l : List DetectedEntity) (a : DetectedEntity),
      List.Chain (fun x y : DetectedEntity => x.stop ≤ y.start) a l →
      (∀ x ∈ a :: l, x.start ≤ x.stop) →
      List.Pairwise (fun x y : DetectedEntity => x.stop ≤ y.start)
        (a :: l) := by
  intro l
  induction l with
  | nil => intro a _ _; simp
  | cons b bs ih =>
    intro a hch hwf
    rcases List.chain_cons.mp hch with ⟨hab, hb⟩
    have hwf' : ∀ x ∈ b :: bs, x.start ≤ x.stop := by
      intro x hx
      exact hwf x (List.mem_cons_of_mem _ hx)
    have hpw := ih b hb hwf'
    refine List.pairwise_cons.mpr ⟨?_, hpw⟩
    intro y hy
    rcases List.mem_cons.mp hy with h | h
    · subst h; exact hab
    · have hby : b.stop ≤ y.start :=
        (List.pairwise_cons.mp hpw).1 y h
      have hbwf : b.start ≤ b.stop := hwf' b (List.mem_cons_self b bs)
      omega

/-- C5: deduplication sorts by `(start ascending, confidence
descending)` and drops an entity whose `start` lies inside the
previously kept entity's `[start, end)`; consequently, whenever every
input entity satisfies `start ≤ end`, any two surviving entities do
not overlap: one ends at or before the other starts. -/
theorem C5_deduplicate_nonoverlapping (l : List DetectedEntity)
    (hwf : ∀ x ∈ l, x.start ≤ x.stop) :
    List.Pairwise
      (fun a b : DetectedEntity => a.stop ≤ b.start ∨ b.stop ≤ a.start)
      (PIIDetector.deduplicate l) := by
  unfold PIIDetector.deduplicate
  cases hs : sortEnts l with
  | nil => simp
  | cons e es =>
    have hmem : ∀ x ∈ e :: dedupGo e es, x.start ≤ x.stop := by
      intro x hx
      rcases List.mem_cons.mp hx with h | h
      · refine hwf x (sortEnts_mem ?_)
        rw [hs, h]
        exact List.mem_cons_self e es
      · refine hwf x (sortEnts_mem ?_)
        rw [hs]
        exact List.mem_cons_of_mem _ (dedupGo_mem es e h)
    have hpw := chain_stop_start_pairwise (dedupGo e es) e
      (dedupGo_chain es e) hmem
    exact hpw.imp (fun h => Or.inl h)

/-- C5 witness: a concrete overlapping pair (the spec's scenario d —
an EMAIL at `[10, 26)` and a NER PERSON at `[10, 14)`): the survivors
of deduplication are the EMAIL alone, and they are pairwise
non-overlapping. -/
theorem C5_deduplicate_nonoverlapping_witness :
    (let em : DetectedEntity :=
      { entity_type := "EMAIL", text := ['j', 'o', 'h', 'n'], start := 10,
        stop := 26, confidence := 10000, page := 0, source := "regex",
        bbox := none }
    let pers : DetectedEntity :=
      { entity_type := "PERSON", text := ['j', 'o', 'h', 'n'], start := 10,
        stop := 14, confidence := 9500, page := 0, source := "ner",
        bbox := none }
    PIIDetector.deduplicate [em, pers] = [em] ∧
      List.Pairwise
        (fun a b : DetectedEntity => a.stop ≤ b.start ∨ b.stop ≤ a.start)
        (PIIDetector.deduplicate [em, pers])) := by
  intro em pers
  refine ⟨by decide, ?_⟩
  exact C5_deduplicate_nonoverlapping [em, pers] (by decide)

/-! ## Claim C7 -/

/-- C7: for an in-range entity without a bbox, `Redactor.redact` skips
it entirely when its text is shorter than 4 characters; otherwise it
annotates only the first `search_for` match (none if the search finds
nothing), and every annotation the entity contributes covers the first
match on the entity's page — never a later occurrence. -/
theorem C7_redactor_bboxless_first_match_only (numPages : Nat)
    (searchFor : Nat → PyStr → List Rect) (e : DetectedEntity)
    (hb : e.bbox = none) (hp : e.page < numPages) :
    (e.text.length < 4 → entityAnnots numPages searchFor e = []) ∧
    (4 ≤ e.text.length →
      entityAnnots numPages searchFor e =
        ((searchFor e.page e.text).take 1).map (fun r => (e.page, r))) ∧
    (∀ pr ∈ entityAnnots numPages searchFor e,
      (searchFor e.page e.text).head? = some pr.2 ∧ pr.1 = e.page) := by
  have hcond : ¬ numPages ≤ e.page := Nat.not_le.mpr hp
  have hA : entityAnnots numPages searchFor e =
      (if e.text.length < 4 then []
       else match searchFor e.page e.text with
            | [] => []
            | r :: _ => [(e.page, r)]) := by
    unfold entityAnnots
    rw [if_neg hcond, hb]
  refine ⟨?_, ?_, ?_⟩
  · intro h4
    rw [hA, if_pos h4]
  · intro h4
    rw [hA, if_neg (Nat.not_lt.mpr h4)]
    cases hsearch : searchFor e.page e.text with
    | nil => rfl
    | cons r rest => rfl
  · intro pr hpr
    rw [hA] at hpr
    by_cases h4 : e.text.length < 4
    · rw [if_pos h4] at hpr
      simp at hpr
    · rw [if_neg h4] at hpr
      cases hsearch : searchFor e.page e.text with
      | nil => rw [hsearch] at hpr; simp at hpr
      | cons r rest =>
        rw [hsearch] at hpr
        simp only [List.mem_singleton] at hpr
        rw [hpr]
        exact ⟨rfl, rfl⟩

/-- The concrete `search_for` results used by the C7 witness: two
occurrences of `"abcd"` on page 1. -/
def c7search : Nat → PyStr → List Rect := fun p t =>
  if p == 1 && t == ['a', 'b', 'c', 'd'] then
    [{ x0 := 5, y0 := 5, x1 := 9, y1 := 9 },
     { x0 := 100, y0 := 100, x1 := 104, y1 := 104 }]
  else []

/-- The bbox-less entity used by the C7 witness. -/
def c7entity : DetectedEntity :=
  { entity_type := "PAN", text := ['a', 'b', 'c', 'd'], start := 0,
    stop := 4, confidence := 10000, page := 1, source := "regex",
    bbox := none }

/-- C7 witness: the concrete entity is annotated over the first of the
two search matches only. -/
theorem C7_redactor_bboxless_first_match_only_witness :
    entityAnnots 2 c7search c7entity =
      ((c7search c7entity.page c7entity.text).take 1).map
        (fun r => (c7entity.page, r)) :=
  (C7_redactor_bboxless_first_match_only 2 c7search c7entity rfl
    (by decide)).2.1 (by decide)

/-! ## Claim C3 -/

theorem pySlice_length (s : PyStr) (a b : Nat) :
    (pySlice s a b).length = min (b - a) (s.length - a) := by
  simp [pySlice]

/-- A string of SSN shape has exactly 11 characters. -/
theorem ssnShape_length {cs : PyStr} (h : ssnShape cs = true) :
    cs.length = 11 := by
  unfold ssnShape at h
  split at h
  · simp_all
  · exact absurd h (by simp)

/-- An SSN match at `i` fits inside the text. -/
theorem ssnMatchAt_le {s : PyStr} {i : Nat} (h : ssnMatchAt s i = true) :
    i + 11 ≤ s.length := by
  unfold ssnMatchAt at h
  have hshape : ssnShape (pySlice s i (i + 11)) = true := by
    rcases Bool.and_eq_true_iff.mp h with ⟨h1, _⟩
    exact (Bool.and_eq_true_iff.mp h1).2
  have hlen := ssnShape_length hshape
  rw [pySlice_length] at hlen
  omega

/-- Every match the SSN scan emits is well formed. -/
theorem ssnScan_wf (s : PyStr) :
    ∀ (fuel i : Nat), ∀ m ∈ ssnScan s i fuel, WFMatch s m := by
  intro fuel
  induction fuel with
  | zero => intro i m hm; simp [ssnScan] at hm
  | succ n ih =>
    intro i m hm
    unfold ssnScan at hm
    by_cases hmatch : ssnMatchAt s i
    · simp only [hmatch, if_true] at hm
      rcases List.mem_cons.mp hm with h | h
      · subst h
        exact ⟨by show i < i + 11; omega, ssnMatchAt_le hmatch, rfl⟩
      · exact ih _ m h
    · simp only [hmatch, if_false] at hm
      by_cases hi : i < s.length
      · simp only [hi, if_true] at hm
        exact ih _ m hm
      · simp [hi] at hm

/-- Every match of the concrete SSN `finditer` is well formed —
grounding the `re`-engine contract used in C3. -/
theorem findSSN_wf (s : PyStr) : ∀ m ∈ findSSN s, WFMatch s m :=
  fun m hm => ssnScan_wf s (s.length + 1) 0 m hm

/-- Regex-sourced entities inherit the engine's contract: in-range,
nonempty, and carrying exactly the matched slice. -/
theorem detectRegex_wf (t : PyStr) (page : Nat)
    (pm : List (String × List MatchSpan))
    (h : ∀ p ∈ pm, ∀ m ∈ p.2, WFMatch t m) :
    ∀ e ∈ PIIDetector.detectRegex page pm,
      e.start < e.stop ∧ e.stop ≤ t.length ∧
        e.text = pySlice t e.start e.stop ∧ e.source = "regex" := by
  intro e he
  unfold PIIDetector.detectRegex at he
  rcases List.mem_flatMap.mp he with ⟨p, hp, he2⟩
  rcases List.mem_map.mp he2 with ⟨m, hm, rfl⟩
  rcases h p hp m hm with ⟨h1, h2, h3⟩
  exact ⟨h1, h2, h3, rfl⟩

/-- Chunk origins lie strictly inside the text. -/
theorem chunkStarts_lt (n : Nat) : ∀ cs ∈ chunkStarts n, cs < n := by
  intro cs hcs
  unfold chunkStarts at hcs
  rcases List.mem_map.mp hcs with ⟨k, hk, rfl⟩
  have hk' := List.mem_range.mp hk
  have hmul : (k + 1) * 450 ≤ n + 449 := by
    calc (k + 1) * 450 ≤ ((n + 449) / 450) * 450 :=
          Nat.mul_le_mul_right _ (Nat.succ_le_of_lt hk')
      _ ≤ n + 449 := Nat.div_mul_le_self _ _
  omega

/-- NER-sourced entities are in range whenever the tagger reports
nonempty offsets inside its chunk; their source is `"ner"` and their
text is the tagger's stripped `word` — which the code never checks
against the slice. -/
theorem detectNer_wf (t : PyStr) (page : Nat)
    (tagger : PyStr → List NerRaw)
    (htag : ∀ cs ∈ chunkStarts t.length,
      ∀ r ∈ tagger (pySlice t cs (cs + 450)),
        r.start < r.stop ∧ r.stop ≤ (pySlice t cs (cs + 450)).length) :
    ∀ e ∈ PIIDetector.detectNer t page tagger,
      e.start < e.stop ∧ e.stop ≤ t.length ∧ e.source = "ner" := by
  intro e he
  unfold PIIDetector.detectNer at he
  rcases List.mem_flatMap.mp he with ⟨cs, hcs, he2⟩
  rcases List.mem_filterMap.mp he2 with ⟨r, hr, hsome⟩
  rcases htag cs hcs r hr with ⟨hr1, hr2⟩
  have hcslt := chunkStarts_lt t.length cs hcs
  have hslice := pySlice_length t cs (cs + 450)
  simp only at hsome
  split at hsome
  · exact absurd hsome (by simp)
  · split at hsome
    · exact absurd hsome (by simp)
    · split at hsome
      · exact absurd hsome (by simp)
      · have he3 := Option.some.inj hsome
        subst he3
        refine ⟨by simp; omega, by simp; omega, rfl⟩

/-- Survivors of deduplication come from the input list. -/
theorem deduplicate_mem {x : DetectedEntity} {l : List DetectedEntity}
    (h : x ∈ PIIDetector.deduplicate l) : x ∈ l := by
  unfold PIIDetector.deduplicate at h
  cases hs : sortEnts l with
  | nil => rw [hs] at h; simp at h
  | cons e es =>
    rw [hs] at h
    rcases List.mem_cons.mp h with h' | h'
    · refine sortEnts_mem ?_
      rw [hs, h']
      exact List.mem_cons_self e es
    · refine sortEnts_mem ?_
      rw [hs]
      exact List.mem_cons_of_mem _ (dedupGo_mem es e h')

/-- C3 (amended): every entity `detect` returns satisfies
`0 ≤ start < end ≤ len(t)` — for NER entities under the hypothesis that
the tagger reports nonempty offsets inside its chunk, which the code
does not check — and regex-sourced entities carry exactly the matched
slice as their text. (NER-sourced entities carry the tagger's reported
`word`, not the slice; see the counterexample.) -/
theorem C3_detect_ranges_amended (t : PyStr) (page : Nat)
    (pm : List (String × List MatchSpan)) (nerLoaded : Bool)
    (tagger : PyStr → List NerRaw)
    (hre : ∀ p ∈ pm, ∀ m ∈ p.2, WFMatch t m)
    (htag : ∀ cs ∈ chunkStarts t.length,
      ∀ r ∈ tagger (pySlice t cs (cs + 450)),
        r.start < r.stop ∧ r.stop ≤ (pySlice t cs (cs + 450)).length) :
    ∀ e ∈ PIIDetector.detect t page pm nerLoaded tagger,
      e.start < e.stop ∧ e.stop ≤ t.length ∧
        (e.source = "regex" → e.text = pySlice t e.start e.stop) := by
  intro e he
  unfold PIIDetector.detect at he
  have hmem := deduplicate_mem he
  rcases List.mem_append.mp hmem with hia | hib
  · rcases detectRegex_wf t page pm hre e hia with ⟨h1, h2, h3, _⟩
    exact ⟨h1, h2, fun _ => h3⟩
  · cases nerLoaded with
    | false => simp at hib
    | true =>
      simp only [if_true] at hib
      rcases detectNer_wf t page tagger htag e hib with ⟨h1, h2, hsrc⟩
      refine ⟨h1, h2, fun hr => absurd (hsrc ▸ hr) (by simp)⟩

/-- The page text of the C3 concrete inputs. -/
def c3text : PyStr :=
  ['S', 'S', 'N', ':', ' ', '1', '2', '3', '-', '4', '5', '-', '6',
   '7', '8', '9']

/-- C3 witness: on the page text `"SSN: 123-45-6789"` with the concrete
SSN match stream (well-formed by `findSSN_wf`, discharged by
evaluation) and an empty tagger, every detected entity is in range and
regex entities carry the matched slice. -/
theorem C3_detect_ranges_amended_witness :
    (∀ p ∈ [("SSN", findSSN c3text)], ∀ m ∈ p.2, WFMatch c3text m) ∧
    (∀ e ∈ PIIDetector.detect c3text 0 [("SSN", findSSN c3text)] true
        (fun _ => []),
      e.start < e.stop ∧ e.stop ≤ c3text.length ∧
        (e.source = "regex" → e.text = pySlice c3text e.start e.stop)) :=
  ⟨by decide,
    C3_detect_ranges_amended c3text 0 [("SSN", findSSN c3text)] true
      (fun _ => []) (by decide) (by decide)⟩

/-- The tagger output used by the C3 counterexample: on the chunk
`"abcdef"` it reports a PER entity with `word = "XYZ"` over offsets
`[0, 3)`. -/
def c3tagger : PyStr → List NerRaw := fun c =>
  if c == ['a', 'b', 'c', 'd', 'e', 'f'] then
    [{ entity_group := "PER", word := ['X', 'Y', 'Z'], score := 9500,
       start := 0, stop := 3 }]
  else []

/-- C3 counterexample: `detect` returns a NER entity whose `text` is
`"XYZ"` while the slice `t[start:end]` is `"abc"` — unequal even after
removing all whitespace, so no whitespace normalization can reconcile
them. The claim's slice condition fails for NER-sourced entities: the
code adopts the tagger's `word` verbatim. -/
theorem C3_counterexample_ner_text_not_slice :
    PIIDetector.detect ['a', 'b', 'c', 'd', 'e', 'f'] 0 [] true c3tagger =
      [{ entity_type := "PERSON", text := ['X', 'Y', 'Z'], start := 0,
         stop := 3, confidence := 9500, page := 0, source := "ner",
         bbox := none }] ∧
    (['X', 'Y', 'Z'] : PyStr).filter (fun c => !c.isWhitespace) ≠
      (pySlice ['a', 'b', 'c', 'd', 'e', 'f'] 0 3).filter
        (fun c => !c.isWhitespace) := by
  constructor
  · decide
  · decide

/-! ## Claim C6 -/

/-- Encoding then decoding one hex digit is the identity below 16. -/
theorem hexVal_hexDigitChar : ∀ n < 16, hexVal (hexDigitChar n) = some n := by
  decide

/-- `bytes.fromhex(bs.hex())` recovers the bytes. -/
theorem hexDecode_hexEncode :
    ∀ (bs : List Nat), (∀ b ∈ bs, b < 256) →
      hexDecode (hexEncode bs) = some bs := by
  intro bs
  induction bs with
  | nil => intro _; rfl
  | cons b rest ih =>
    intro hlt
    have hb : b < 256 := hlt b (List.mem_cons_self b rest)
    have hhi : b / 16 < 16 := by omega
    have hlo : b % 16 < 16 := by omega
    have hrest := ih (fun x hx => hlt x (List.mem_cons_of_mem _ hx))
    unfold hexEncode at hrest ⊢
    unfold hexDecode at hrest ⊢
    simp only [List.flatMap_cons, List.cons_append, List.nil_append]
    show hexDecodeList (hexDigitChar (b / 16) :: hexDigitChar (b % 16) ::
      (rest.flatMap fun b => [hexDigitChar (b / 16), hexDigitChar (b % 16)]))
      = some (b :: rest)
    unfold hexDecodeList
    rw [hexVal_hexDigitChar _ hhi, hexVal_hexDigitChar _ hlo]
    have hrest' : hexDecodeList
        (rest.flatMap fun b => [hexDigitChar (b / 16), hexDigitChar (b % 16)])
        = some rest := hrest
    rw [hrest']
    show some ((b / 16 * 16 + b % 16) :: rest) = some (b :: rest)
    have : b / 16 * 16 + b % 16 = b := by omega
    rw [this]

/-- C6: for every PDF the signer can open, `verify(sign(pdf))` holds:
under the `cryptography` library's key-pair contract (a signature made
with the resident private key verifies against its public half) and
with the produced signature being genuine bytes, the verification of
the signed output against the hash it stores succeeds. -/
theorem C6_verify_of_sign (sha256hex : List Nat → String)
    (ecdsaSign : List Nat → List Nat)
    (ecdsaVerify : List Nat → List Nat → Bool) (data : List Nat)
    (signedAt : String)
    (hkey : ∀ msg, ecdsaVerify (ecdsaSign msg) msg = true)
    (hbytes : ∀ b ∈ ecdsaSign (strBytes (sha256hex data)), b < 256) :
    DocumentSigner.verify ecdsaVerify
      (DocumentSigner.sign sha256hex ecdsaSign data signedAt) = .ok true := by
  unfold DocumentSigner.sign DocumentSigner.verify signKeywords kwLoads jGet
  simp only [List.lookup]
  rw [show (("secure_doc_ai_signature" ==
      "secure_doc_ai_signature") = true) from rfl]
  simp only [if_true]
  rw [hexDecode_hexEncode _ hbytes]
  rw [show (("sha256" == "secure_doc_ai_signature") = false) from rfl]
  simp only [Bool.false_eq_true, if_false]
  rw [show (("sha256" == "sha256") = true) from rfl]
  simp only [if_true]
  rw [hkey]

/-- A toy hash standing in for `hashlib.sha256().hexdigest()` in the C6
witness. -/
def c6hash : List Nat → String := fun _ => "aa"

/-- A toy signing primitive for the C6 witness: the signature is the
message itself. -/
def c6sign : List Nat → List Nat := fun msg => msg

/-- The matching toy verification primitive for the C6 witness. -/
def c6verify : List Nat → List Nat → Bool := fun sig msg => sig == msg

/-- C6 witness: with the toy key pair (which satisfies the key-pair
contract) and concrete input bytes, signing then verifying returns
`True`. -/
theorem C6_verify_of_sign_witness :
    DocumentSigner.verify c6verify
      (DocumentSigner.sign c6hash c6sign [37, 80, 68, 70] "t") = .ok true :=
  C6_verify_of_sign c6hash c6sign c6verify [37, 80, 68, 70] "t"
    (fun msg => by simp [c6verify, c6sign]) (by decide)

/-! ## Claim C10 -/

/-- C10 (amended): `verify` returns `False` — rather than raising —
when the keywords metadata is absent, is not valid JSON, or parses to a
JSON **object** lacking the signature key, or lacking the `sha256` key
when the signature value decoded; but when the keywords parse to a
non-object JSON value (which also "lacks" both keys), subscripting
raises a `TypeError` that `verify` does not catch (see the
counterexample), and a non-hex or non-string signature value likewise
raises. -/
theorem C10_verify_graceful_false_amended
    (ecdsaVerify : List Nat → List Nat → Bool) :
    DocumentSigner.verify ecdsaVerify .absent = .ok false ∧
    DocumentSigner.verify ecdsaVerify .invalidJson = .ok false ∧
    (∀ kvs : List (String × JVal),
      kvs.lookup "secure_doc_ai_signature" = none →
      DocumentSigner.verify ecdsaVerify (.val (.jobj kvs)) = .ok false) ∧
    (∀ (kvs : List (String × JVal)) (s : String) (sig : List Nat),
      kvs.lookup "secure_doc_ai_signature" = some (.jstr s) →
      hexDecode s = some sig →
      kvs.lookup "sha256" = none →
      DocumentSigner.verify ecdsaVerify (.val (.jobj kvs)) = .ok false) := by
  refine ⟨rfl, rfl, ?_, ?_⟩
  · intro kvs hnone
    simp only [DocumentSigner.verify, kwLoads, jGet, hnone]
  · intro kvs s sig hsig hdec hnone
    simp only [DocumentSigner.verify, kwLoads, jGet, hsig, hdec, hnone]

/-- C10 witness: at a concrete object without the signature key,
`verify` returns `False`. -/
theorem C10_verify_graceful_false_amended_witness :
    DocumentSigner.verify (fun _ _ => false)
      (.val (.jobj [("author", .jstr "a")])) = .ok false :=
  (C10_verify_graceful_false_amended (fun _ _ => false)).2.2.1
    [("author", .jstr "a")] rfl

/-- C10 counterexample: the keywords value `"confidential"` is valid
JSON (a JSON string) that lacks both keys, yet `verify` raises a
`TypeError` from subscripting a non-dict instead of returning `False`:
the `except` clause catches only `JSONDecodeError` and `KeyError`. -/
theorem C10_counterexample_nonobject_keywords :
    DocumentSigner.verify (fun _ _ => false)
      (.val (.jstr "confidential")) = .error .typeError ∧
    DocumentSigner.verify (fun _ _ => false)
      (.val (.jstr "confidential")) ≠ .ok false :=
  ⟨rfl, fun h => Except.noConfusion h⟩

end NerPii
